import Mathlib

/-!
Verification of the document-analysis orchestration pipeline:
chunker, API gateway client, parallel analysis orchestrator,
retrieval index and feedback improvement engine, shallowly embedded
from the Python source.  Python strings are modelled as lists of
characters, integers as naturals, floats (ratings, confidence and
impact scores) as rationals, and the nondeterminism of the external
API and of task completion as explicit oracle parameters.
-/

namespace PolicyReviewer

/-- A Python string, modelled as its list of characters. -/
abbrev Str := List Char

/-- The paragraph separator used by text.split in smart_chunk_text. -/
def sepPar : Str := ['\n', '\n']

/-- ASCII whitespace as matched by Python str.strip and the regex whitespace class. -/
def isWs (c : Char) : Bool :=
  c = ' ' || c = '\t' || c = '\n' || c = '\r' || c = '\x0b' || c = '\x0c'

/-- Python str.strip: remove leading and trailing whitespace. -/
def pyStrip (s : Str) : Str :=
  ((s.dropWhile isWs).reverse.dropWhile isWs).reverse

/-- Python sep.join(parts). -/
def joinSep (sep : Str) : List Str → Str
  | [] => []
  | [x] => x
  | x :: y :: xs => x ++ sep ++ joinSep sep (y :: xs)

/-- Python substring containment (pat in s). -/
def containsSub (pat : Str) : Str → Bool
  | [] => pat.isEmpty
  | c :: cs => pat.isPrefixOf (c :: cs) || containsSub pat cs

/-- Python text.split with separator a double newline, scanning left to right
and cutting at each leftmost non-overlapping occurrence.  The accumulator
holds the current piece reversed. -/
def splitParasAux : Str → Str → List Str
  | [], acc => [acc.reverse]
  | '\n' :: '\n' :: rest, acc => acc.reverse :: splitParasAux rest []
  | '\n' :: c :: rest, acc => splitParasAux (c :: rest) ('\n' :: acc)
  | c :: rest, acc => splitParasAux rest (c :: acc)

/-- paragraphs = text.split two-newline, exactly as in smart_chunk_text. -/
def pySplitPar (s : Str) : List Str := splitParasAux s []

/-- Length of the maximal prefix of s whose characters satisfy p. -/
def countWhile (p : Char → Bool) : Str → Nat
  | [] => 0
  | c :: cs => if p c then countWhile p cs + 1 else 0

/-- Decimal digit, as matched by the regex digit class. -/
def isDigit (c : Char) : Bool := '0' ≤ c && c ≤ '9'

/-- The section-marker keyword alternation of the table-of-contents regex:
CHAPTER, SECTION or PART matched as an exact prefix, returning its length. -/
def matchKeyword (s : Str) : Option Nat :=
  if ("CHAPTER".toList).isPrefixOf s then some 7
  else if ("SECTION".toList).isPrefixOf s then some 7
  else if ("PART".toList).isPrefixOf s then some 4
  else none

/-- Match, at the start of s, the section-marker regex of smart_chunk_text:
a newline, then any run of whitespace, then CHAPTER or SECTION or PART, then at
least one whitespace, then at least one digit (all quantifiers greedy; the
character classes of adjacent parts are disjoint, so the greedy run lengths
are forced).  Returns the total matched length. -/
def matchSecMarker : Str → Option Nat
  | '\n' :: rest =>
    let w := countWhile isWs rest
    match matchKeyword (rest.drop w) with
    | none => none
    | some k =>
      let afterK := (rest.drop w).drop k
      let w2 := countWhile isWs afterK
      if w2 = 0 then none
      else
        let d := countWhile isDigit (afterK.drop w2)
        if d = 0 then none else some (1 + w + k + w2 + d)
  | _ => none

/-- Position and length of the leftmost section-marker match in s. -/
def findMarker : Str → Option (Nat × Nat)
  | [] => none
  | c :: cs =>
    match matchSecMarker (c :: cs) with
    | some l => some (0, l)
    | none => (findMarker cs).map (fun p => (p.1 + 1, p.2))

/-- Regex split of the text on section markers, with explicit fuel bounding the
number of cuts; every match consumes at least one character, so a fuel of
s.length never runs out. -/
def reSplitSecGo : Nat → Str → List Str
  | 0, s => [s]
  | fuel + 1, s =>
    match findMarker s with
    | none => [s]
    | some (i, l) => s.take i :: reSplitSecGo fuel (s.drop (i + l))

/-- re.split of the section-marker pattern over the whole text. -/
def reSplitSec (s : Str) : List Str := reSplitSecGo s.length s

/-- The table-of-contents trigger substring. -/
def tocPat : Str := "TABLE OF CONTENTS".toList

/-- The greedy paragraph-packing loop of smart_chunk_text: paragraphs are
appended to a running buffer; when adding the next paragraph would push the
buffer past max_chunk_size and the buffer is nonempty, the buffer is flushed;
the final nonempty buffer is always flushed. -/
def chunkParas (maxCS : Nat) : List Str → Str → List Str
  | [], cur => if cur = [] then [] else [cur]
  | p :: ps, cur =>
    if maxCS < cur.length + p.length ∧ cur ≠ [] then
      cur :: chunkParas maxCS ps p
    else
      chunkParas maxCS ps (if cur = [] then p else cur ++ sepPar ++ p)

/-- smart_chunk_text(text, max_chunk_size): single chunk when the text fits;
the regex section split (keeping only stripped sections longer than 1000
characters) when the text mentions a table of contents; otherwise the greedy
paragraph packing. -/
def smart_chunk_text (text : Str) (maxCS : Nat) : List Str :=
  if text.length ≤ maxCS then [text]
  else if containsSub tocPat (text.map Char.toUpper) then
    ((reSplitSec text).map pyStrip).filter (fun s => 1000 < s.length)
  else
    chunkParas maxCS (pySplitPar text) []

/-- Ghost version of the paragraph-packing loop keeping each buffer as the
list of paragraphs it joins; chunkParas is its image under joinSep.  Used
only to state and prove coverage and size bounds. -/
def chunkParasG (maxCS : Nat) : List Str → List Str → List (List Str)
  | [], curG => if joinSep sepPar curG = [] then [] else [curG]
  | p :: ps, curG =>
    if maxCS < (joinSep sepPar curG).length + p.length ∧ joinSep sepPar curG ≠ [] then
      curG :: chunkParasG maxCS ps [p]
    else
      chunkParasG maxCS ps (if joinSep sepPar curG = [] then [p] else curG ++ [p])

/-- The sub-sequence of input paragraphs that survives chunking (verification
artifact: the flattened ghost groups; in the small-text branch all paragraphs
survive). -/
def keptParas (text : Str) (maxCS : Nat) : List Str :=
  if text.length ≤ maxCS then pySplitPar text
  else (chunkParasG maxCS (pySplitPar text) []).flatten

/- ==================== API GATEWAY CLIENT ==================== -/

/-- Observable outcome of one HTTP attempt inside direct_api_call_optimized:
either an exception escaped the try block (transport error, json decoding,
or a missing nested field while unwrapping the first candidate), or a
response arrived with a status code and, when the candidate envelope was
complete, the extracted first-candidate text. -/
inductive ApiResp where
  | exn (msg : Str)
  | resp (status : Nat) (candidate : Option Str)

/-- max_prompt_length = 32000. -/
def maxPromptLength : Nat := 32000

/-- Prompt truncation performed before sending. -/
def truncatePrompt (prompt : Str) : Str :=
  if maxPromptLength < prompt.length then
    prompt.take (maxPromptLength - 100) ++ ("...".toList)
  else prompt

/-- timeout = min(25, max(10, len(prompt) // 2000)). -/
def timeoutFor (prompt : Str) : Nat := min 25 (max 10 (prompt.length / 2000))

/-- The sentinel returned after retries on a bad or candidate-less response. -/
def apiErrorStr (status : Nat) : Str := ("API error: ".toList) ++ (Nat.repr status).toList

/-- The sentinel returned after retries when the attempt raised. -/
def apiFailedStr (msg : Str) : Str := ("API request failed: ".toList) ++ msg

/-- A returned string is one of the client sentinels (by its prefix). -/
def isSentinelStr (s : Str) : Bool :=
  ("API error: ".toList).isPrefixOf s || ("API request failed".toList).isPrefixOf s

/-- What the try block of one loop iteration does with the attempt outcome:
a 200 response with a complete candidate returns its text; any other response
falls through to the retry logic carrying the status code; a raised exception
reaches the handler. -/
inductive TryOutcome where
  | success (text : Str)
  | noCandidate (status : Nat)
  | raised (msg : Str)

/-- Translation of the try-block body. -/
def tryBody (r : ApiResp) : TryOutcome :=
  match r with
  | .exn m => .raised m
  | .resp status cand =>
    if status = 200 then
      match cand with
      | some t => .success t
      | none => .noCandidate status
    else .noCandidate status

/-- The attempt neither returned a candidate text nor could it. -/
def attemptFailed (r : ApiResp) : Bool :=
  match tryBody r with
  | .success _ => false
  | _ => true

/-- Result of the retry loop: the value returned (the .error case of the
result models an exception raised to the caller, which the loop never does),
the number of attempts consumed, and the backoff delays slept (seconds). -/
structure CallResult where
  result : Except Str Str
  attempts : Nat
  delays : List ℚ

/-- The retry loop of direct_api_call_optimized.  env gives the outcome of
each attempt; remaining counts the retries still allowed (attempt < max_retries
in the source is remaining > 0 here); each retry sleeps 0.5 seconds. -/
def apiCallGo (env : Nat → ApiResp) (attempt : Nat) : Nat → CallResult
  | 0 =>
    match tryBody (env attempt) with
    | .success t => ⟨.ok t, attempt + 1, []⟩
    | .noCandidate status => ⟨.ok (apiErrorStr status), attempt + 1, []⟩
    | .raised m => ⟨.ok (apiFailedStr m), attempt + 1, []⟩
  | remaining + 1 =>
    match tryBody (env attempt) with
    | .success t => ⟨.ok t, attempt + 1, []⟩
    | .noCandidate _ =>
      let r := apiCallGo env (attempt + 1) remaining
      ⟨r.result, r.attempts, (1 / 2 : ℚ) :: r.delays⟩
    | .raised _ =>
      let r := apiCallGo env (attempt + 1) remaining
      ⟨r.result, r.attempts, (1 / 2 : ℚ) :: r.delays⟩

/-- direct_api_call_optimized(prompt, api_key, max_retries).  A missing API
key raises ValueError (the .error case); otherwise the prompt is truncated,
the timeout computed, and the retry loop runs at most max_retries + 1
attempts.  env maps the truncated prompt, the timeout and the attempt number
to that attempt's observable outcome. -/
def direct_api_call_optimized (env : Str → Nat → Nat → ApiResp)
    (prompt apiKey : Str) (maxRetries : Nat) : Except Str CallResult :=
  if apiKey = [] then .error ("API key is required".toList)
  else
    let p := truncatePrompt prompt
    .ok (apiCallGo (env p (timeoutFor p)) 0 maxRetries)

/-- The call returned a value to its caller (did not raise). -/
def callSucceeded : Except Str CallResult → Bool
  | .ok _ => true
  | .error _ => false

/- ==================== PARALLEL ANALYSIS ORCHESTRATOR ==================== -/

/-- Outcome of awaiting one executor task: the string direct_api_call_optimized
returned, or the exception the task raised. -/
abbrev ChunkOutcome := Except Str Str

/-- Task result is a value, not an exception. -/
def isOkOutcome : ChunkOutcome → Bool
  | .ok _ => true
  | .error _ => false

/-- The value of a successful task (empty for an exception). -/
def outcomeText : ChunkOutcome → Str
  | .ok s => s
  | .error _ => []

/-- The per-chunk prompt built by analyze_chunks_parallel for chunk i of n
(kept for reference; the executor outcome for chunk i is abstracted as an
oracle indexed by i, and the prompt text does not influence the scheduling
semantics verified here). -/
def chunkPrompt (ctx chunk : Str) (i n : Nat) : Str :=
  ("\n        ".toList) ++ ctx ++ ("\n        Part ".toList) ++ (Nat.repr (i + 1)).toList
    ++ (" of ".toList) ++ (Nat.repr n).toList
    ++ (". Analyze this section:\n        ".toList) ++ chunk ++ ("\n        ".toList)

/-- The order in which the tasks of one batch complete, induced by an
arbitrary latency assignment: tasks finish sorted by latency. -/
def completionOrder (lat : Nat → Nat) (b : List Nat) : List Nat :=
  List.insertionSort (fun i j => lat i ≤ lat j) b

/-- asyncio.gather over one batch: every task runs to completion in latency
order, depositing (task index, outcome) into a completion log; gather then
yields the results in the order of the input task list, reading each task's
entry from the log. -/
def runBatch (env : Nat → ChunkOutcome) (lat : Nat → Nat) (b : List Nat) :
    List ChunkOutcome :=
  let log := (completionOrder lat b).map (fun i => (i, env i))
  b.map (fun i =>
    (((log.find? (fun e => e.1 == i)).map Prod.snd).getD (.error ("pending".toList))))

/-- The batch slicing of the task list, batch_size = 3. -/
def batched3 : List Nat → List (List Nat)
  | [] => []
  | [a] => [[a]]
  | [a, b] => [[a, b]]
  | a :: b :: c :: rest => [a, b, c] :: batched3 rest

/-- analyze_chunks_parallel: one task per chunk, gathered in batches of
three (with a fixed cooldown sleep between batches, irrelevant to the value
computed), results extended in batch order, and finally every result that is
an exception is filtered out. -/
def analyze_chunks_parallel (env : Nat → ChunkOutcome) (lat : Nat → Nat)
    (chunks : List Str) (_ctx : Str) : List Str :=
  let tasks := List.range chunks.length
  let all_results := ((batched3 tasks).map (runBatch env lat)).flatten
  all_results.filterMap (fun r => match r with | .ok s => some s | .error _ => none)

/-- The section labels of the combined report: the i-th surviving analysis
(0-based) is headed "## Section i+1". -/
def labelSections (i : Nat) : List Str → List Str
  | [] => []
  | a :: rest =>
    (("## Section ".toList) ++ (Nat.repr (i + 1)).toList ++ ('\n' :: a))
      :: labelSections (i + 1) rest

/-- The two-newline join of the labelled sections, as built inline in
analyze_large_document_fast. -/
def combineSections (analyses : List Str) : Str :=
  joinSep sepPar (labelSections 0 analyses)

/-- The prompt of the short-document single call. -/
def singlePrompt (ctx text : Str) : Str := ctx ++ ("\n\nDocument: ".toList) ++ text

/-- The synthesis prompt built from the (truncated) combined analysis. -/
def synthesisPrompt (combined : Str) : Str :=
  ("Based on these section analyses, provide a brief synthesis:\n    ".toList)
    ++ combined.take 6000
    ++ ("...\n    \n    Provide: 1) Key summary 2) Main findings 3) Critical recommendations".toList)

/-- The oracles of one orchestrated analysis: the outcome of the executor
task for chunk i, the outcome of a direct (non-chunk) call keyed by its
prompt, and the completion latency of the chunk tasks. -/
structure OrchestratorEnv where
  chunkCall : Nat → ChunkOutcome
  directCall : Str → ChunkOutcome
  lat : Nat → Nat

/-- analyze_large_document_fast: short documents make one direct call;
otherwise the text is chunked at 30000, the chunks analysed in parallel and
the surviving analyses labelled and joined; with more than three chunks a
synthesis call is appended as an executive summary.  Exceptions of the direct
and synthesis calls propagate (the .error case); chunk exceptions never do. -/
def analyze_large_document_fast (env : OrchestratorEnv) (text ctx : Str) :
    Except Str Str :=
  if text.length < 50000 then env.directCall (singlePrompt ctx text)
  else
    let chunks := smart_chunk_text text 30000
    let analyses := analyze_chunks_parallel env.chunkCall env.lat chunks ctx
    if chunks.length ≤ 3 then .ok (combineSections analyses)
    else
      match env.directCall (synthesisPrompt (combineSections analyses)) with
      | .error e => .error e
      | .ok s => .ok (combineSections analyses ++ ("\n\n## Executive Summary\n".toList) ++ s)

/- ==================== IMPROVEMENT STORE AND SELECTOR ==================== -/

/-- A row of the prompt_improvements table (the fields the selector reads). -/
structure PromptImprovement where
  improved_prompt : Str
  usage_count : Nat
  created_at : Nat
  is_active : Bool
deriving DecidableEq

/-- The sort key of the selector query: usage_count ascending, then
created_at descending. -/
def selLe (a b : PromptImprovement) : Bool :=
  decide (a.usage_count < b.usage_count)
    || (decide (a.usage_count = b.usage_count) && decide (b.created_at ≤ a.created_at))

/-- The selection relation as a proposition, for sorting. -/
def SelRel (a b : PromptImprovement) : Prop := selLe a b = true

instance : DecidableRel SelRel := fun a b => inferInstanceAs (Decidable (_ = true))

/-- The improved-prompt lookup run before an analysis
(analyze_with_feedback_improvements): of the active rows, the first under
usage_count ASC, created_at DESC — the query's single returned row. -/
def selectImprovement (store : List PromptImprovement) : Option PromptImprovement :=
  (List.insertionSort SelRel (store.filter (fun r => r.is_active))).head?

/-- The usage-count update run after a selection: every row whose
improved_prompt matches the used prompt has its usage_count incremented. -/
def recordUsage (p : Str) (store : List PromptImprovement) : List PromptImprovement :=
  store.map (fun r =>
    if r.improved_prompt = p then
      ⟨r.improved_prompt, r.usage_count + 1, r.created_at, r.is_active⟩
    else r)

/- ==================== FEEDBACK PATTERN ENGINE ==================== -/

/-- One entry of an issue bucket built by extract_common_issues: the grouped
feedback text, the group's frequency, and its rating (absent when the
underlying rating column is NULL). -/
structure IssueEntry where
  text : Str
  frequency : Nat
  rating : Option ℚ

/-- One entry of a correction bucket built by analyze_correction_patterns:
the grouped correction row carries no rating. -/
structure CorrectionEntry where
  user_correction : Str
  feedback_text : Str
  category : Str
  frequency : Nat

/-- The improvement record synthesized for a bucket. -/
structure ImprovementArtifact where
  impType : Str
  prompt_addition : Str
  confidence : ℚ
  impact_score : ℚ
  total_affected : Nat

/-- The fixed guideline block for each issue bucket (the improvement_prompts
dict, defaulting to the empty string). -/
def improvementPrompts (issueType : Str) : Str :=
  if issueType = "accuracy_issues".toList then
    ("\nACCURACY IMPROVEMENT GUIDELINES:\n- Always double-check facts and figures before including them\n- When uncertain about specific details, acknowledge the uncertainty\n- Provide sources or indicate when information should be verified\n- Be more conservative with definitive statements\n- Cross-reference information when possible\n            ").toList
  else if issueType = "completeness_issues".toList then
    ("\nCOMPLETENESS IMPROVEMENT GUIDELINES:\n- Provide more comprehensive analysis covering all relevant aspects\n- Include examples and practical applications where appropriate\n- Address potential implications and considerations\n- Expand on key points with additional context\n- Ensure all parts of the user question are addressed\n            ").toList
  else if issueType = "relevance_issues".toList then
    ("\nRELEVANCE IMPROVEMENT GUIDELINES:\n- Stay focused on the specific context and requirements provided\n- Prioritize information that directly relates to the user sector and use case\n- Avoid generic information that does not apply to the specific situation\n- Tailor examples and recommendations to the stated context\n- Filter out tangential information that does not add value\n            ").toList
  else if issueType = "format_issues".toList then
    ("\nFORMAT IMPROVEMENT GUIDELINES:\n- Use clear headings and structure for better readability\n- Organize information in logical sections\n- Use bullet points and lists for better clarity\n- Maintain consistent formatting throughout\n- Ensure proper use of markdown formatting\n            ").toList
  else []

/-- The fixed guideline block for each correction bucket (the
correction_prompts dict, defaulting to the empty string). -/
def correctionPrompts (correctionType : Str) : Str :=
  if correctionType = "factual_corrections".toList then
    ("\nFACTUAL ACCURACY GUIDELINES:\n- Verify all factual claims before including them\n- Be explicit about uncertainty when information cannot be confirmed\n- Use qualifying language for complex or evolving topics\n- Provide context for statistics and data points\n            ").toList
  else if correctionType = "tone_corrections".toList then
    ("\nTONE IMPROVEMENT GUIDELINES:\n- Maintain a professional yet accessible tone\n- Adapt formality level to the context and audience\n- Be confident but not overly assertive\n- Use clear, direct language while remaining respectful\n            ").toList
  else if correctionType = "structure_corrections".toList then
    ("\nSTRUCTURE IMPROVEMENT GUIDELINES:\n- Use clear, logical organization with proper headings\n- Present information in order of importance\n- Use consistent formatting and structure\n- Ensure smooth transitions between sections\n            ").toList
  else if correctionType = "scope_corrections".toList then
    ("\nSCOPE IMPROVEMENT GUIDELINES:\n- Provide appropriate level of detail for the context\n- Balance comprehensiveness with brevity\n- Focus on the most relevant information first\n- Expand on critical points while avoiding unnecessary detail\n            ").toList
  else []

/-- create_improvement_for_issue_type: None for an empty bucket; otherwise
confidence = min(total_frequency / 20, 1), impact_score = (5 - avg_rating)/5
where avg_rating sums the truthy (present, nonzero) ratings but divides by
the number of all entries. -/
def create_improvement_for_issue_type (issueType : Str) (issues : List IssueEntry) :
    Option ImprovementArtifact :=
  if issues.isEmpty then none
  else
    let total_frequency := (issues.map (fun e => e.frequency)).sum
    let avg_rating : ℚ :=
      (((issues.filterMap (fun e => e.rating)).filter (fun r => r ≠ 0)).sum)
        / (issues.length : ℚ)
    some ⟨issueType, improvementPrompts issueType,
          min ((total_frequency : ℚ) / 20) 1,
          (5 - avg_rating) / 5,
          total_frequency⟩

/-- create_improvement_for_corrections: None for an empty bucket; otherwise
confidence = min(total_frequency / 10, 1) and a fixed impact_score of 0.8. -/
def create_improvement_for_corrections (correctionType : Str)
    (corrections : List CorrectionEntry) : Option ImprovementArtifact :=
  if corrections.isEmpty then none
  else
    let total_frequency := (corrections.map (fun e => e.frequency)).sum
    some ⟨correctionType ++ ("_improvement".toList), correctionPrompts correctionType,
          min ((total_frequency : ℚ) / 10) 1,
          (4 / 5 : ℚ),
          total_frequency⟩

/- ==================== RETRIEVAL INDEX (RAG PIPELINE) ==================== -/

/-- re.split on runs of sentence punctuation, scanning character by
character; inRun records that the scanner is inside a separator run. -/
def splitPunctGo : Str → Str → Bool → List Str
  | [], acc, _ => [acc.reverse]
  | c :: rest, acc, inRun =>
    if c = '.' || c = '!' || c = '?' then
      if inRun then splitPunctGo rest acc true
      else acc.reverse :: splitPunctGo rest [] true
    else splitPunctGo rest (c :: acc) false

/-- The greedy sentence-packing loop of chunk_text_for_rag: sentences are
appended (with a restored ". ") while the buffer stays under chunk_size;
otherwise the stripped buffer is flushed. -/
def ragPack (chunkSize : Nat) : List Str → Str → List Str
  | [], cur => if cur = [] then [] else [pyStrip cur]
  | s :: ss, cur =>
    if cur.length + s.length < chunkSize then
      ragPack chunkSize ss (cur ++ s ++ (". ".toList))
    else
      (if cur = [] then [] else [pyStrip cur]) ++ ragPack chunkSize ss (s ++ (". ".toList))

/-- chunk_text_for_rag(text, chunk_size=512): split into sentences (stripped,
empties removed), then greedily pack. -/
def chunk_text_for_rag (text : Str) (chunkSize : Nat) : List Str :=
  if text = [] then []
  else
    ragPack chunkSize
      (((splitPunctGo text [] false).map pyStrip).filter (fun s => s ≠ [])) []

/-- One chunk_metadata entry. -/
structure ChunkMeta where
  document_id : Str
  chunk_index : Nat
  metadata : List (Str × Str)

/-- The state of LightweightRAGPipeline, parametric in the vector type
produced by the external vectorizer. -/
structure RAGState (V : Type) where
  vectorizerAvailable : Bool
  document_vectors : Option V
  chunks : List Str
  chunk_metadata : List ChunkMeta

/-- LightweightRAGPipeline.add_document: a no-op when the vectorizer is
unavailable; otherwise the text's retrieval chunks are appended to the
corpus and the vectorizer is re-fitted over the whole corpus (fit_transform
on self.chunks, skipped only when the corpus is empty).  fitTransform
abstracts the external TfidfVectorizer.fit_transform. -/
def add_document {V : Type} (fitTransform : List Str → V) (st : RAGState V)
    (docId : Str) (text : Str) (metadata : List (Str × Str)) : RAGState V :=
  if st.vectorizerAvailable = false then st
  else
    let cs := chunk_text_for_rag text 512
    let chunks2 := st.chunks ++ cs
    let meta2 := st.chunk_metadata ++ (cs.enum.map (fun p => ⟨docId, p.1, metadata⟩))
    ⟨st.vectorizerAvailable,
     if chunks2.isEmpty then st.document_vectors else some (fitTransform chunks2),
     chunks2, meta2⟩

/- ==================== CONCRETE INPUTS ==================== -/

/-- A 12-character two-paragraph text, each paragraph 5 characters. -/
def cexText : Str := "aaaaa\n\nbbbbb".toList

/-- A text whose uppercase mentions a table of contents. -/
def tocText : Str := "TABLE OF CONTENTS".toList

/-- A 30000-character paragraph. -/
def paraA : Str := List.replicate 30000 'a'

/-- A 60002-character two-paragraph document (above the 50000 threshold,
chunking into exactly two 30000-character chunks). -/
def bigText : Str := paraA ++ sepPar ++ paraA

/-- An orchestrator environment in which every external call raises. -/
def envAllFail : OrchestratorEnv :=
  ⟨fun _ => .error ("boom".toList), fun _ => .error ("boom".toList), fun _ => 0⟩

/-- The sentinel the client returns after exhausting retries on status 500. -/
def sentinel500 : Str := apiErrorStr 500

/-- An API environment in which every attempt yields a 500 response. -/
def env500 : Str → Nat → Nat → ApiResp := fun _ _ _ => .resp 500 none

/-- Chunk-task outcomes: chunk 0 returns the client sentinel (no exception),
chunk 1 returns a normal analysis. -/
def cexChunkEnv : Nat → ChunkOutcome :=
  fun i => if i = 0 then .ok sentinel500 else .ok ("good".toList)

/-- Chunk-task outcomes: chunk 0 raises, chunk 1 returns normally. -/
def oneFailEnv : Nat → ChunkOutcome :=
  fun i => if i = 0 then .error ("boom".toList) else .ok ("ok".toList)

/-- A constant latency assignment. -/
def latZero : Nat → Nat := fun _ => 0

/-- Active improvement A: usage 0, created at time 10. -/
def impA : PromptImprovement := ⟨"A".toList, 0, 10, true⟩

/-- Active improvement B: usage 5, created at time 20 (more recent). -/
def impB : PromptImprovement := ⟨"B".toList, 5, 20, true⟩

/-- A store holding exactly A and B. -/
def storeAB : List PromptImprovement := [impA, impB]

/-- An issue-bucket entry with frequency 3 and rating 2. -/
def issueW : IssueEntry := ⟨"wrong".toList, 3, some 2⟩

/-- A correction-bucket entry with frequency 5 (correction rows carry no
rating). -/
def corrW : CorrectionEntry := ⟨"should be X".toList, [], "accuracy".toList, 5⟩

/-- A fresh retrieval-index state with the vectorizer available. -/
def ragEmpty : RAGState Nat := ⟨true, none, [], []⟩

/- ==================== LEMMAS: joins and splits ==================== -/

theorem joinSep_cons (sep x : Str) (ys : List Str) (h : ys ≠ []) :
    joinSep sep (x :: ys) = x ++ sep ++ joinSep sep ys := by
  cases ys with
  | nil => exact absurd rfl h
  | cons y ys => rfl

theorem joinSep_eq_nil_iff (g : List Str) :
    joinSep sepPar g = [] ↔ g = [] ∨ g = [[]] := by
  match g with
  | [] => simp [joinSep]
  | [x] => simp [joinSep]
  | x :: y :: xs => simp [joinSep, sepPar]

theorem joinSep_append (a b : List Str) (ha : a ≠ []) (hb : b ≠ []) :
    joinSep sepPar (a ++ b) = joinSep sepPar a ++ sepPar ++ joinSep sepPar b := by
  induction a with
  | nil => exact absurd rfl ha
  | cons x xs ih =>
    cases xs with
    | nil =>
      simp only [List.cons_append, List.nil_append]
      rw [joinSep_cons _ _ _ hb, joinSep]
    | cons y ys =>
      have hxs : y :: ys ≠ [] := by simp
      have happ : (y :: ys) ++ b ≠ [] := by simp
      rw [List.cons_append, joinSep_cons _ _ _ happ, joinSep_cons _ _ _ hxs,
        ih hxs]
      simp [List.append_assoc]

theorem joinSep_flattenMap (groups : List (List Str))
    (h : ∀ g ∈ groups, g ≠ []) :
    joinSep sepPar (groups.map (joinSep sepPar)) = joinSep sepPar groups.flatten := by
  induction groups with
  | nil => rfl
  | cons g gs ih =>
    cases gs with
    | nil => simp [joinSep]
    | cons g2 gs2 =>
      have hg : g ≠ [] := h g (by simp)
      have hg2 : g2 ≠ [] := h g2 (by simp)
      have htail : ∀ x ∈ g2 :: gs2, x ≠ [] := fun x hx => h x (by simp [hx])
      have hflat : (g2 :: gs2).flatten ≠ [] := by
        cases g2 with
        | nil => exact absurd rfl hg2
        | cons c cs => simp [List.flatten]
      have hmapne : (g2 :: gs2).map (joinSep sepPar) ≠ [] := by simp
      rw [List.map_cons, joinSep_cons _ _ _ hmapne, ih htail]
      conv_rhs => rw [List.flatten_cons]
      rw [joinSep_append g ((g2 :: gs2).flatten) hg hflat]

theorem splitParasAux_ne_nil (s acc : Str) : splitParasAux s acc ≠ [] := by
  induction s, acc using splitParasAux.induct with
  | case1 acc => simp [splitParasAux]
  | case2 rest acc ih => simp [splitParasAux]
  | case3 c rest acc hne ih => simp only [splitParasAux, hne]; exact ih
  | case4 c rest acc h1 h2 ih =>
    rw [splitParasAux]
    · exact ih
    · exact h1
    · exact h2

theorem splitParasAux_join (s acc : Str) :
    joinSep sepPar (splitParasAux s acc) = acc.reverse ++ s := by
  induction s, acc using splitParasAux.induct with
  | case1 acc => simp [splitParasAux, joinSep]
  | case2 rest acc ih =>
    rw [splitParasAux, joinSep_cons _ _ _ (splitParasAux_ne_nil rest []), ih]
    simp [sepPar]
  | case3 c rest acc hne ih =>
    simp only [splitParasAux, hne]
    rw [ih]; simp
  | case4 c rest acc h1 h2 ih =>
    rw [splitParasAux]
    · rw [ih]; simp
    · exact h1
    · exact h2

theorem pySplitPar_join (s : Str) : joinSep sepPar (pySplitPar s) = s := by
  simpa using splitParasAux_join s []

theorem joinSep_append_singleton (g : List Str) (p : Str) (h : g ≠ []) :
    joinSep sepPar (g ++ [p]) = joinSep sepPar g ++ sepPar ++ p := by
  have := joinSep_append g [p] h (by simp)
  simpa [joinSep] using this

theorem ne_nil_of_joinSep_ne_nil {g : List Str} (h : joinSep sepPar g ≠ []) : g ≠ [] := by
  intro hg; exact h (by simp [hg, joinSep])

theorem chunkParas_eq_ghost (maxCS : Nat) (ps : List Str) (curG : List Str) :
    chunkParas maxCS ps (joinSep sepPar curG)
      = (chunkParasG maxCS ps curG).map (joinSep sepPar) := by
  induction ps generalizing curG with
  | nil =>
    by_cases h : joinSep sepPar curG = [] <;> simp [chunkParas, chunkParasG, h]
  | cons p ps ih =>
    by_cases hc : maxCS < (joinSep sepPar curG).length + p.length ∧ joinSep sepPar curG ≠ []
    · rw [chunkParas, chunkParasG, if_pos hc, if_pos hc, List.map_cons]
      have hp := ih [p]
      rw [show joinSep sepPar [p] = p from rfl] at hp
      rw [hp]
    · rw [chunkParas, chunkParasG, if_neg hc, if_neg hc]
      by_cases h0 : joinSep sepPar curG = []
      · rw [if_pos h0, if_pos h0]
        have hp := ih [p]
        rw [show joinSep sepPar [p] = p from rfl] at hp
        exact hp
      · rw [if_neg h0, if_neg h0]
        have hj := joinSep_append_singleton curG p (ne_nil_of_joinSep_ne_nil h0)
        rw [← hj]
        exact ih (curG ++ [p])

theorem chunkParasG_ne (maxCS : Nat) (ps curG : List Str) :
    ∀ g ∈ chunkParasG maxCS ps curG, joinSep sepPar g ≠ [] := by
  induction ps generalizing curG with
  | nil =>
    intro g hg
    by_cases h : joinSep sepPar curG = []
    · simp [chunkParasG, h] at hg
    · simp [chunkParasG, h] at hg
      simpa [hg] using h
  | cons p ps ih =>
    intro g hg
    by_cases hc : maxCS < (joinSep sepPar curG).length + p.length ∧ joinSep sepPar curG ≠ []
    · rw [chunkParasG, if_pos hc] at hg
      rcases List.mem_cons.mp hg with h1 | h2
      · simpa [h1] using hc.2
      · exact ih [p] g h2
    · rw [chunkParasG, if_neg hc] at hg
      by_cases h0 : joinSep sepPar curG = []
      · rw [if_pos h0] at hg; exact ih [p] g hg
      · rw [if_neg h0] at hg; exact ih (curG ++ [p]) g hg

theorem chunkParasG_flatten_sublist (maxCS : Nat) (ps curG : List Str) :
    (chunkParasG maxCS ps curG).flatten.Sublist (curG ++ ps) := by
  induction ps generalizing curG with
  | nil =>
    by_cases h : joinSep sepPar curG = []
    · simp [chunkParasG, h]
    · simp [chunkParasG, h]
  | cons p ps ih =>
    by_cases hc : maxCS < (joinSep sepPar curG).length + p.length ∧ joinSep sepPar curG ≠ []
    · rw [chunkParasG, if_pos hc, List.flatten_cons]
      exact (ih [p]).append_left curG
    · rw [chunkParasG, if_neg hc]
      by_cases h0 : joinSep sepPar curG = []
      · rw [if_pos h0]
        exact (ih [p]).trans (List.sublist_append_right curG (p :: ps))
      · rw [if_neg h0]
        have := ih (curG ++ [p])
        rwa [List.append_assoc, List.singleton_append] at this

theorem chunkParasG_flatten_filter (maxCS : Nat) (ps curG : List Str)
    (hcur : curG = [] ∨ curG = [[]] ∨ joinSep sepPar curG ≠ []) :
    (chunkParasG maxCS ps curG).flatten.filter (fun q => !q.isEmpty)
      = (curG ++ ps).filter (fun q => !q.isEmpty) := by
  induction ps generalizing curG with
  | nil =>
    by_cases h : joinSep sepPar curG = []
    · rcases (joinSep_eq_nil_iff curG).mp h with h1 | h1 <;>
        simp [chunkParasG, h, h1]
    · simp [chunkParasG, h]
  | cons p ps ih =>
    by_cases hc : maxCS < (joinSep sepPar curG).length + p.length ∧ joinSep sepPar curG ≠ []
    · rw [chunkParasG, if_pos hc, List.flatten_cons, List.filter_append,
        ih [p] (by simp [joinSep]; exact em _), List.cons_append, List.filter_append]
      simp
    · rw [chunkParasG, if_neg hc]
      by_cases h0 : joinSep sepPar curG = []
      · rw [if_pos h0, ih [p] (by simp [joinSep]; exact em _)]
        rcases (joinSep_eq_nil_iff curG).mp h0 with h1 | h1 <;> simp [h1]
      · have h3 : joinSep sepPar (curG ++ [p]) ≠ [] := by
          rw [joinSep_append_singleton curG p (ne_nil_of_joinSep_ne_nil h0)]
          simp [sepPar]
        rw [if_neg h0, ih (curG ++ [p]) (Or.inr (Or.inr h3)), List.append_assoc,
          List.singleton_append]

theorem chunkParasG_size (maxCS : Nat) (ps curG : List Str)
    (hinv : curG.length = 1 ∨ (joinSep sepPar curG).length ≤ maxCS + 2) :
    ∀ g ∈ chunkParasG maxCS ps curG,
      g.length = 1 ∨ (joinSep sepPar g).length ≤ maxCS + 2 := by
  induction ps generalizing curG with
  | nil =>
    intro g hg
    by_cases h : joinSep sepPar curG = []
    · simp [chunkParasG, h] at hg
    · simp [chunkParasG, h] at hg
      rw [hg]; exact hinv
  | cons p ps ih =>
    intro g hg
    by_cases hc : maxCS < (joinSep sepPar curG).length + p.length ∧ joinSep sepPar curG ≠ []
    · rw [chunkParasG, if_pos hc] at hg
      rcases List.mem_cons.mp hg with h1 | h2
      · rw [h1]; exact hinv
      · exact ih [p] (Or.inl rfl) g h2
    · rw [chunkParasG, if_neg hc] at hg
      by_cases h0 : joinSep sepPar curG = []
      · rw [if_pos h0] at hg
        exact ih [p] (Or.inl rfl) g hg
      · rw [if_neg h0] at hg
        refine ih (curG ++ [p]) (Or.inr ?_) g hg
        rw [joinSep_append_singleton curG p (ne_nil_of_joinSep_ne_nil h0)]
        have hle : (joinSep sepPar curG).length + p.length ≤ maxCS := by
          rcases not_and_or.mp hc with h1 | h1
          · omega
          · exact absurd h0 (not_not.mpr (not_not.mp h1))
        have h2 : sepPar.length = 2 := rfl
        simp only [List.length_append]
        omega

/- ==================== CLAIMS C4 AND C5 ==================== -/

/-- C4 (amended): for every non-empty input text whose uppercase does not
mention a table of contents, every chunk returned by smart_chunk_text is
non-empty, and every chunk either is a single input paragraph (which may
exceed maxChunkSize) or has length at most maxChunkSize + 2 — the packing
check does not count the two characters of the restored paragraph
separator, so a multi-paragraph chunk may exceed maxChunkSize by up to 2. -/
theorem c4_chunk_bounds (text : Str) (maxCS : Nat) (htext : text ≠ [])
    (htoc : containsSub tocPat (text.map Char.toUpper) = false) :
    ∀ c ∈ smart_chunk_text text maxCS,
      c ≠ [] ∧ (c ∈ pySplitPar text ∨ c.length ≤ maxCS + 2) := by
  intro c hc
  rw [smart_chunk_text] at hc
  by_cases hlen : text.length ≤ maxCS
  · rw [if_pos hlen] at hc
    have hce : c = text := by simpa using hc
    subst hce
    exact ⟨htext, Or.inr (le_trans hlen (Nat.le_add_right _ _))⟩
  · rw [if_neg hlen, if_neg (by simp [htoc])] at hc
    have hg := chunkParas_eq_ghost maxCS (pySplitPar text) []
    rw [show joinSep sepPar ([] : List Str) = [] from rfl] at hg
    rw [hg] at hc
    obtain ⟨g, hgmem, rfl⟩ := List.mem_map.mp hc
    refine ⟨chunkParasG_ne maxCS _ [] g hgmem, ?_⟩
    rcases chunkParasG_size maxCS (pySplitPar text) []
        (Or.inr (by simp [joinSep])) g hgmem with h1 | h1
    · left
      obtain ⟨q, rfl⟩ := List.length_eq_one.mp h1
      have hq : q ∈ (chunkParasG maxCS (pySplitPar text) []).flatten :=
        List.mem_flatten.mpr ⟨[q], hgmem, by simp⟩
      have hsub := chunkParasG_flatten_sublist maxCS (pySplitPar text) []
      simpa [joinSep] using hsub.subset hq
    · right; exact h1

/-- C4 counterexample: on the two-paragraph text of paragraph lengths 5 and
5 with maxChunkSize 10, smart_chunk_text returns a single 12-character chunk
that exceeds maxChunkSize yet is not a single oversized input paragraph, so
the claimed bound (no chunk exceeds maxChunkSize except a lone oversized
paragraph) is false as stated. -/
theorem c4_cex : ¬ (∀ c ∈ smart_chunk_text cexText 10,
    c ≠ [] ∧ (c.length ≤ 10 ∨ (c ∈ pySplitPar cexText ∧ 10 < c.length))) := by
  decide

/-- C4 witness: the amended bound evaluated on a concrete two-character text
with maxChunkSize 0. -/
theorem c4_witness :
    ("ab".toList ≠ [] ∧
      ("ab".toList ∈ pySplitPar ("ab".toList) ∨ ("ab".toList).length ≤ 0 + 2)) :=
  c4_chunk_bounds ("ab".toList) 0 (by decide) (by decide) ("ab".toList) (by decide)

/-- C5 (amended): for every text whose uppercase does not mention a table of
contents, joining the returned chunks with the paragraph separator equals
the join of a subsequence of the input's paragraphs which retains every
non-empty paragraph in order, with no duplication (empty paragraphs may be
collapsed while the packing buffer is empty). -/
theorem c5_coverage (text : Str) (maxCS : Nat)
    (htoc : containsSub tocPat (text.map Char.toUpper) = false) :
    (keptParas text maxCS).Sublist (pySplitPar text) ∧
    (keptParas text maxCS).filter (fun q => !q.isEmpty)
      = (pySplitPar text).filter (fun q => !q.isEmpty) ∧
    joinSep sepPar (smart_chunk_text text maxCS)
      = joinSep sepPar (keptParas text maxCS) := by
  by_cases hlen : text.length ≤ maxCS
  · rw [keptParas, if_pos hlen, smart_chunk_text, if_pos hlen]
    exact ⟨List.Sublist.refl _, rfl, by rw [pySplitPar_join]; rfl⟩
  · rw [keptParas, if_neg hlen, smart_chunk_text, if_neg hlen, if_neg (by simp [htoc])]
    refine ⟨by simpa using chunkParasG_flatten_sublist maxCS (pySplitPar text) [],
      by simpa using chunkParasG_flatten_filter maxCS (pySplitPar text) [] (Or.inl rfl),
      ?_⟩
    have hg := chunkParas_eq_ghost maxCS (pySplitPar text) []
    rw [show joinSep sepPar ([] : List Str) = [] from rfl] at hg
    rw [hg, joinSep_flattenMap]
    intro g hgmem
    exact ne_nil_of_joinSep_ne_nil (chunkParasG_ne maxCS _ [] g hgmem)

/-- C5 counterexample: a 17-character table-of-contents text, chunked at
maxChunkSize 5, takes the regex-section branch, whose length filter discards
every section: the chunk list is empty, so its concatenation is empty while
the input has one non-empty paragraph — that paragraph is dropped, refuting
the claim that no paragraph of the input is dropped. -/
theorem c5_cex :
    joinSep sepPar (smart_chunk_text tocText 5) = [] ∧
    (pySplitPar tocText).filter (fun q => !q.isEmpty) = [tocText] := by
  decide

/-- C5 witness: the amended coverage statement evaluated on a concrete
two-character text with maxChunkSize 0. -/
theorem c5_witness :
    (keptParas ("ab".toList) 0).Sublist (pySplitPar ("ab".toList)) ∧
    (keptParas ("ab".toList) 0).filter (fun q => !q.isEmpty)
      = (pySplitPar ("ab".toList)).filter (fun q => !q.isEmpty) ∧
    joinSep sepPar (smart_chunk_text ("ab".toList) 0)
      = joinSep sepPar (keptParas ("ab".toList) 0) :=
  c5_coverage ("ab".toList) 0 (by decide)

/- ==================== LEMMAS: orchestrator ==================== -/

theorem mem_completionOrder (lat : Nat → Nat) (b : List Nat) (i : Nat) :
    i ∈ completionOrder lat b ↔ i ∈ b :=
  (List.perm_insertionSort _ b).mem_iff

theorem runBatch_eq (env : Nat → ChunkOutcome) (lat : Nat → Nat) (b : List Nat) :
    runBatch env lat b = b.map env := by
  unfold runBatch
  apply List.map_congr_left
  intro i hi
  have hmem : (i, env i) ∈ (completionOrder lat b).map (fun j => (j, env j)) :=
    List.mem_map.mpr ⟨i, (mem_completionOrder lat b i).mpr hi, rfl⟩
  obtain ⟨e, he⟩ : ∃ e,
      ((completionOrder lat b).map (fun j => (j, env j))).find?
        (fun e => e.1 == i) = some e := by
    have : (((completionOrder lat b).map (fun j => (j, env j))).find?
        (fun e => e.1 == i)).isSome := by
      rw [List.find?_isSome]
      exact ⟨(i, env i), hmem, by simp⟩
    exact Option.isSome_iff_exists.mp this
  have hfst : e.1 = i := by
    have := List.find?_some he
    simpa using this
  have hsnd : e.2 = env e.1 := by
    have := List.mem_of_find?_eq_some he
    obtain ⟨j, _, hj⟩ := List.mem_map.mp this
    rw [← hj]
  rw [he]
  simp [hsnd, hfst]

theorem batched3_flatten (l : List Nat) : (batched3 l).flatten = l := by
  induction l using batched3.induct with
  | case1 => rfl
  | case2 a => rfl
  | case3 a b => rfl
  | case4 a b c rest ih => simp [batched3, ih]

theorem analyze_chunks_parallel_eq (env : Nat → ChunkOutcome) (lat : Nat → Nat)
    (chunks : List Str) (ctx : Str) :
    analyze_chunks_parallel env lat chunks ctx
      = ((List.range chunks.length).map env).filterMap
          (fun r => match r with | .ok s => some s | .error _ => none) := by
  have h1 : (batched3 (List.range chunks.length)).map (runBatch env lat)
      = (batched3 (List.range chunks.length)).map (fun b => b.map env) :=
    List.map_congr_left (fun b _ => runBatch_eq env lat b)
  simp only [analyze_chunks_parallel]
  rw [h1, ← List.map_flatten, batched3_flatten]

theorem filterMap_outcomes (env : Nat → ChunkOutcome) (l : List Nat) :
    (l.map env).filterMap
        (fun r => match r with | .ok s => some s | .error _ => none)
      = (l.filter (fun i => isOkOutcome (env i))).map (fun i => outcomeText (env i)) := by
  induction l with
  | nil => rfl
  | cons a t ih =>
    cases h : env a <;>
      simp [List.filterMap_cons, List.filter_cons, h, isOkOutcome, outcomeText, ih]

theorem filter_length_of_one_false {α : Type} [DecidableEq α] (l : List α)
    (p : α → Bool) (j : α) (hnd : l.Nodup) (hj : j ∈ l) (hpj : p j = false)
    (hok : ∀ i ∈ l, i ≠ j → p i = true) :
    (l.filter p).length = l.length - 1 := by
  induction l with
  | nil => cases hj
  | cons a t ih =>
    rcases List.mem_cons.mp hj with rfl | hjt
    · have hfil : t.filter p = t := List.filter_eq_self.mpr (fun x hx =>
        hok x (List.mem_cons_of_mem _ hx)
          (fun hxa => (List.nodup_cons.mp hnd).1 (hxa ▸ hx)))
      simp [List.filter_cons, hpj, hfil]
    · have ha : p a = true := hok a (by simp)
        (by rintro rfl; exact (List.nodup_cons.mp hnd).1 hjt)
      have ht := ih (List.nodup_cons.mp hnd).2 hjt
        (fun i hi hij => hok i (List.mem_cons_of_mem a hi) hij)
      have hpos : 1 ≤ t.length := List.length_pos.mpr (List.ne_nil_of_mem hjt)
      simp only [List.filter_cons, ha, if_pos, List.length_cons, ht]
      omega

/- ==================== CLAIM C1 ==================== -/

/-- C1: for every chunk list dispatched by analyze_chunks_parallel, whatever
the completion order of the individual tasks (the latency oracle), the result
list equals the successful outcomes in the order of the chunks' original
positions 0..n-1 — so the sections of the report combined by
analyze_large_document_fast appear in position order, independent of
completion order. -/
theorem c1_section_order (env : Nat → ChunkOutcome) (lat : Nat → Nat)
    (chunks : List Str) (ctx : Str) :
    analyze_chunks_parallel env lat chunks ctx
      = ((List.range chunks.length).map env).filterMap
          (fun r => match r with | .ok s => some s | .error _ => none)
    ∧ ∀ lat2 : Nat → Nat,
        analyze_chunks_parallel env lat chunks ctx
          = analyze_chunks_parallel env lat2 chunks ctx := by
  refine ⟨analyze_chunks_parallel_eq env lat chunks ctx, fun lat2 => ?_⟩
  rw [analyze_chunks_parallel_eq env lat chunks ctx,
    analyze_chunks_parallel_eq env lat2 chunks ctx]

/- ==================== CLAIM C10 ==================== -/

/-- C10: when chunk analyses are dropped as failures, the surviving sections
are relabelled consecutively: the combined report equals the join of the
successful results taken in original position order, labelled "Section 1"
through "Section m" by rank among the survivors (not by original chunk
position). -/
theorem c10_relabelling (env : Nat → ChunkOutcome) (lat : Nat → Nat)
    (chunks : List Str) (ctx : Str) :
    combineSections (analyze_chunks_parallel env lat chunks ctx)
      = joinSep sepPar (labelSections 0
          (((List.range chunks.length).filter (fun i => isOkOutcome (env i))).map
            (fun i => outcomeText (env i)))) := by
  rw [combineSections, analyze_chunks_parallel_eq, filterMap_outcomes]

/- ==================== CLAIM C2 ==================== -/

/-- C2 (amended): a chunk task that fails by raising an exception is dropped:
with n > 1 chunks of which exactly one raises, the combined output has n - 1
sections.  A chunk call that merely returns the client's sentinel error
string does not raise, so it is kept: whenever every task returns a string
(sentinel or not) the output has all n sections. -/
theorem c2_partial_failure (env : Nat → ChunkOutcome) (lat : Nat → Nat)
    (chunks : List Str) (ctx : Str) (j : Nat) (hn : 1 < chunks.length)
    (hj : j < chunks.length) (hjfail : isOkOutcome (env j) = false)
    (hok : ∀ i, i < chunks.length → i ≠ j → isOkOutcome (env i) = true) :
    (analyze_chunks_parallel env lat chunks ctx).length = chunks.length - 1
    ∧ ∀ env2 : Nat → ChunkOutcome, (∀ i, isOkOutcome (env2 i) = true) →
        (analyze_chunks_parallel env2 lat chunks ctx).length = chunks.length := by
  constructor
  · rw [analyze_chunks_parallel_eq, filterMap_outcomes, List.length_map]
    rw [filter_length_of_one_false (List.range chunks.length) _ j
      (List.nodup_range _) (List.mem_range.mpr hj) hjfail
      (fun i hi hij => hok i (List.mem_range.mp hi) hij)]
    simp
  · intro env2 h2
    rw [analyze_chunks_parallel_eq, filterMap_outcomes, List.length_map,
      List.filter_eq_self.mpr (fun i _ => h2 i)]
    simp

/-- C2 counterexample: a chunk call that fails by returning the sentinel
error string (here produced by the API client model itself after exhausting
retries on status-500 responses) is not dropped: with 2 chunks of which
chunk 0 yields the sentinel, the combined output keeps both sections — 2
sections rather than the claimed n - 1 = 1. -/
theorem c2_cex :
    direct_api_call_optimized env500 ("p".toList) ("k".toList) 2
      = .ok ⟨.ok sentinel500, 3, [(1 / 2 : ℚ), (1 / 2 : ℚ)]⟩
    ∧ analyze_chunks_parallel cexChunkEnv latZero [['a'], ['b']] []
        = [sentinel500, "good".toList]
    ∧ ¬ ((2 : Nat) - 1 = 2) := by
  exact ⟨rfl, by decide, by decide⟩

/-- C2 witness: the amended statement evaluated on two chunks of which
exactly chunk 0 raises. -/
theorem c2_witness :
    (analyze_chunks_parallel oneFailEnv latZero [['a'], ['b']] []).length = 2 - 1 :=
  (c2_partial_failure oneFailEnv latZero [['a'], ['b']] [] 0 (by decide) (by decide)
    (by decide) (by decide)).1

/- ==================== LEMMAS: the concrete big document ==================== -/

theorem paraA_length : paraA.length = 30000 := by
  simp only [paraA, List.length_replicate]

theorem paraA_ne_nil : paraA ≠ [] := by
  intro h
  have := congrArg List.length h
  rw [paraA_length] at this
  exact absurd this (by decide)

theorem bigText_length : bigText.length = 60002 := by
  have h2 : sepPar.length = 2 := rfl
  simp only [bigText, List.length_append, paraA_length, h2]

theorem splitParasAux_replicate (r : Str) (n : Nat) (acc : Str) :
    splitParasAux (List.replicate n 'a' ++ '\n' :: '\n' :: r) acc
      = (acc.reverse ++ List.replicate n 'a') :: splitParasAux r [] := by
  induction n generalizing acc with
  | zero => simp [splitParasAux]
  | succ k ih =>
    rw [List.replicate_succ, List.cons_append,
      show splitParasAux ('a' :: (List.replicate k 'a' ++ '\n' :: '\n' :: r)) acc
        = splitParasAux (List.replicate k 'a' ++ '\n' :: '\n' :: r) ('a' :: acc)
        from rfl,
      ih ('a' :: acc)]
    simp

theorem splitParasAux_replicate_nil (n : Nat) (acc : Str) :
    splitParasAux (List.replicate n 'a') acc = [acc.reverse ++ List.replicate n 'a'] := by
  induction n generalizing acc with
  | zero => simp [splitParasAux]
  | succ k ih =>
    rw [List.replicate_succ,
      show splitParasAux ('a' :: List.replicate k 'a') acc
        = splitParasAux (List.replicate k 'a') ('a' :: acc) from rfl,
      ih ('a' :: acc)]
    simp

theorem pySplitPar_bigText : pySplitPar bigText = [paraA, paraA] := by
  rw [pySplitPar, bigText, sepPar, List.append_assoc]
  rw [show (['\n', '\n'] ++ paraA : Str) = '\n' :: '\n' :: paraA from rfl]
  simp only [paraA]
  rw [splitParasAux_replicate (List.replicate 30000 'a') 30000 [],
    splitParasAux_replicate_nil 30000 []]
  simp only [List.reverse_nil, List.nil_append]

theorem containsSub_subset (p s : Str) (h : containsSub p s = true) :
    ∀ c ∈ p, c ∈ s := by
  induction s with
  | nil =>
    intro c hc
    rw [containsSub] at h
    rw [List.isEmpty_iff.mp h] at hc
    cases hc
  | cons a t ih =>
    intro c hc
    rw [containsSub, Bool.or_eq_true] at h
    rcases h with h | h
    · exact (List.isPrefixOf_iff_prefix.mp h).sublist.subset hc
    · exact List.mem_cons_of_mem a (ih h c hc)

theorem bigText_toc : containsSub tocPat (bigText.map Char.toUpper) = false := by
  rw [← Bool.not_eq_true]
  intro htrue
  have hT : 'T' ∈ bigText.map Char.toUpper :=
    containsSub_subset _ _ htrue 'T' (by decide)
  obtain ⟨c, hc, hTc⟩ := List.mem_map.mp hT
  simp only [bigText, paraA, sepPar] at hc
  have hc2 : c = 'a' ∨ c = '\n' := by
    rcases List.mem_append.mp hc with h | h
    · rcases List.mem_append.mp h with h1 | h1
      · exact Or.inl (List.eq_of_mem_replicate h1)
      · right
        rcases List.mem_cons.mp h1 with h2 | h2
        · exact h2
        · rcases List.mem_cons.mp h2 with h3 | h3
          · exact h3
          · exact absurd h3 (List.not_mem_nil c)
    · exact Or.inl (List.eq_of_mem_replicate h)
  rcases hc2 with rfl | rfl <;> exact absurd hTc (by decide)

theorem chunkParas_two (maxCS : Nat) (p q : Str) (hp : p ≠ []) (hq : q ≠ [])
    (h : maxCS < p.length + q.length) :
    chunkParas maxCS [p, q] [] = [p, q] := by
  rw [chunkParas, if_neg (by simp), if_pos rfl]
  rw [chunkParas, if_pos ⟨h, hp⟩]
  rw [chunkParas, if_neg hq]

theorem smart_chunk_large (text : Str) (maxCS : Nat)
    (hlen : ¬ text.length ≤ maxCS)
    (htoc : containsSub tocPat (text.map Char.toUpper) = false) :
    smart_chunk_text text maxCS = chunkParas maxCS (pySplitPar text) [] := by
  rw [smart_chunk_text, if_neg hlen, if_neg (by simp [htoc])]

theorem smart_chunk_bigText : smart_chunk_text bigText 30000 = [paraA, paraA] := by
  rw [smart_chunk_large bigText 30000 (by rw [bigText_length]; omega) bigText_toc,
    pySplitPar_bigText,
    chunkParas_two 30000 paraA paraA paraA_ne_nil paraA_ne_nil
      (by rw [paraA_length]; omega)]

/- ==================== CLAIM C3 ==================== -/

theorem allFail_empty_report (env : OrchestratorEnv) (text ctx : Str)
    (hlen : 50000 ≤ text.length)
    (hchunks : (smart_chunk_text text 30000).length ≤ 3)
    (hfail : ∀ i, isOkOutcome (env.chunkCall i) = false) :
    analyze_large_document_fast env text ctx = .ok (combineSections []) := by
  have hpar : analyze_chunks_parallel env.chunkCall env.lat
      (smart_chunk_text text 30000) ctx = [] := by
    rw [analyze_chunks_parallel_eq, filterMap_outcomes]
    have hfil : (List.range (smart_chunk_text text 30000).length).filter
        (fun i => isOkOutcome (env.chunkCall i)) = [] := by
      rw [List.filter_eq_nil_iff]
      intro i _
      simp [hfail i]
    rw [hfil]
    rfl
  simp only [analyze_large_document_fast]
  rw [if_neg (by omega), if_pos hchunks, hpar]

/-- C3 (amended): when every chunk task fails (raises), the orchestrator does
not return a distinct all-chunks-failed indication: for any large document
with at most three chunks it returns the ordinary combined report over zero
sections — the two-newline join of an empty section list, i.e. the empty
string — exactly as if a report had been assembled normally. -/
theorem c3_no_failure_indication (env : OrchestratorEnv) (text ctx : Str)
    (hlen : 50000 ≤ text.length)
    (hchunks : (smart_chunk_text text 30000).length ≤ 3)
    (hfail : ∀ i, isOkOutcome (env.chunkCall i) = false) :
    analyze_large_document_fast env text ctx = .ok (combineSections [])
    ∧ combineSections [] = [] :=
  ⟨allFail_empty_report env text ctx hlen hchunks hfail, rfl⟩

/-- C3 counterexample: on a concrete 60002-character document splitting into
two chunks, with every chunk task failing, analyze_large_document_fast
returns the ordinary combined report of zero sections (the empty string) —
not any distinct "all chunks failed" indication. -/
theorem c3_cex :
    analyze_large_document_fast envAllFail bigText [] = .ok (combineSections [])
    ∧ combineSections [] = [] :=
  ⟨allFail_empty_report envAllFail bigText []
    (by rw [bigText_length]; omega)
    (by rw [smart_chunk_bigText]; simp)
    (fun _ => rfl), rfl⟩

/-- C3 witness: the amended statement applied to the concrete 60002-character
two-chunk document with all chunk tasks failing. -/
theorem c3_witness :
    analyze_large_document_fast envAllFail bigText [] = .ok (combineSections [])
    ∧ combineSections [] = [] :=
  c3_no_failure_indication envAllFail bigText []
    (by rw [bigText_length]; omega)
    (by rw [smart_chunk_bigText]; simp)
    (fun _ => rfl)

/- ==================== CLAIM C9 ==================== -/

theorem sentinel_apiError (status : Nat) : isSentinelStr (apiErrorStr status) = true := by
  rw [isSentinelStr, Bool.or_eq_true]
  left
  exact List.isPrefixOf_iff_prefix.mpr (List.prefix_append _ _)

theorem sentinel_apiFailed (m : Str) : isSentinelStr (apiFailedStr m) = true := by
  rw [isSentinelStr, Bool.or_eq_true]
  right
  rw [apiFailedStr,
    show ("API request failed: ".toList : Str)
      = "API request failed".toList ++ (": ".toList) from by decide,
    List.append_assoc]
  exact List.isPrefixOf_iff_prefix.mpr (List.prefix_append _ _)

theorem apiCallGo_spec (env : Nat → ApiResp) (rem : Nat) : ∀ attempt,
    (∃ s, (apiCallGo env attempt rem).result = .ok s)
    ∧ (apiCallGo env attempt rem).attempts ≤ attempt + rem + 1
    ∧ (∀ d ∈ (apiCallGo env attempt rem).delays, d = (1 / 2 : ℚ)) := by
  induction rem with
  | zero =>
    intro attempt
    cases h : tryBody (env attempt) with
    | success t => refine ⟨⟨t, ?_⟩, ?_, ?_⟩ <;> simp [apiCallGo, h]
    | noCandidate st => refine ⟨⟨apiErrorStr st, ?_⟩, ?_, ?_⟩ <;> simp [apiCallGo, h]
    | raised m => refine ⟨⟨apiFailedStr m, ?_⟩, ?_, ?_⟩ <;> simp [apiCallGo, h]
  | succ k ih =>
    intro attempt
    cases h : tryBody (env attempt) with
    | success t =>
      refine ⟨⟨t, ?_⟩, ?_, ?_⟩ <;> simp [apiCallGo, h] <;> omega
    | noCandidate st =>
      obtain ⟨⟨s, hs⟩, hat, hd⟩ := ih (attempt + 1)
      refine ⟨⟨s, ?_⟩, ?_, ?_⟩
      · simp only [apiCallGo, h]; exact hs
      · simp only [apiCallGo, h]; omega
      · simp only [apiCallGo, h]
        intro d hdm
        rcases List.mem_cons.mp hdm with rfl | hm
        · rfl
        · exact hd d hm
    | raised m =>
      obtain ⟨⟨s, hs⟩, hat, hd⟩ := ih (attempt + 1)
      refine ⟨⟨s, ?_⟩, ?_, ?_⟩
      · simp only [apiCallGo, h]; exact hs
      · simp only [apiCallGo, h]; omega
      · simp only [apiCallGo, h]
        intro d hdm
        rcases List.mem_cons.mp hdm with rfl | hm
        · rfl
        · exact hd d hm

theorem apiCallGo_allfail (env : Nat → ApiResp) (rem : Nat)
    (h : ∀ i, attemptFailed (env i) = true) : ∀ attempt,
    ∃ s, (apiCallGo env attempt rem).result = .ok s ∧ isSentinelStr s = true
      ∧ (apiCallGo env attempt rem).attempts = attempt + rem + 1 := by
  induction rem with
  | zero =>
    intro attempt
    cases h2 : tryBody (env attempt) with
    | success t =>
      exfalso
      have := h attempt
      rw [attemptFailed, h2] at this
      cases this
    | noCandidate st =>
      exact ⟨apiErrorStr st, by simp [apiCallGo, h2], sentinel_apiError st,
        by simp [apiCallGo, h2]⟩
    | raised m =>
      exact ⟨apiFailedStr m, by simp [apiCallGo, h2], sentinel_apiFailed m,
        by simp [apiCallGo, h2]⟩
  | succ k ih =>
    intro attempt
    cases h2 : tryBody (env attempt) with
    | success t =>
      exfalso
      have := h attempt
      rw [attemptFailed, h2] at this
      cases this
    | noCandidate st =>
      obtain ⟨s, hs, hsen, hat⟩ := ih (attempt + 1)
      refine ⟨s, ?_, hsen, ?_⟩ <;> simp [apiCallGo, h2]
      · exact hs
      · omega
    | raised m =>
      obtain ⟨s, hs, hsen, hat⟩ := ih (attempt + 1)
      refine ⟨s, ?_, hsen, ?_⟩ <;> simp [apiCallGo, h2]
      · exact hs
      · omega

/-- C9: with a non-empty API key, direct_api_call_optimized never raises to
its caller: it returns a result after at most maxRetries + 1 attempts, every
backoff delay between attempts is the fixed 0.5 seconds, and when every
attempt fails (non-200 status, missing candidate on a 200, or a raised
transport or decoding error) it consumes exactly maxRetries + 1 attempts and
returns a sentinel error string. -/
theorem c9_client_never_raises (env : Str → Nat → Nat → ApiResp)
    (prompt apiKey : Str) (mr : Nat) (hkey : apiKey ≠ []) :
    ∃ cr : CallResult,
      direct_api_call_optimized env prompt apiKey mr = .ok cr
      ∧ cr.attempts ≤ mr + 1
      ∧ (∀ d ∈ cr.delays, d = (1 / 2 : ℚ))
      ∧ (∃ s, cr.result = .ok s)
      ∧ ((∀ a, attemptFailed
            (env (truncatePrompt prompt) (timeoutFor (truncatePrompt prompt)) a) = true) →
          cr.attempts = mr + 1
          ∧ ∃ s, cr.result = .ok s ∧ isSentinelStr s = true) := by
  refine ⟨apiCallGo (env (truncatePrompt prompt) (timeoutFor (truncatePrompt prompt))) 0 mr,
    ?_, ?_, ?_, ?_, ?_⟩
  · simp only [direct_api_call_optimized]
    rw [if_neg hkey]
  · simpa using (apiCallGo_spec _ mr 0).2.1
  · exact (apiCallGo_spec _ mr 0).2.2
  · exact (apiCallGo_spec _ mr 0).1
  · intro hfail
    obtain ⟨s, hs, hsen, hat⟩ := apiCallGo_allfail _ mr hfail 0
    exact ⟨by simpa using hat, s, hs, hsen⟩

/-- C9 witness: the client applied to all-500 responses with a concrete
prompt and key returns a value rather than raising. -/
theorem c9_witness :
    callSucceeded (direct_api_call_optimized env500 ("p".toList) ("k".toList) 2) = true := by
  obtain ⟨cr, hcr, _⟩ := c9_client_never_raises env500 ("p".toList) ("k".toList) 2 (by decide)
  rw [hcr]
  rfl

/- ==================== CLAIM C6 ==================== -/

instance : IsTotal PromptImprovement SelRel := ⟨by
  intro a b
  simp only [SelRel, selLe, Bool.or_eq_true, Bool.and_eq_true, decide_eq_true_eq]
  omega⟩

instance : IsTrans PromptImprovement SelRel := ⟨by
  intro a b c
  simp only [SelRel, selLe, Bool.or_eq_true, Bool.and_eq_true, decide_eq_true_eq]
  omega⟩

/-- C6: selectImprovement returns an active improvement of minimal usage
count, breaking usage ties by most recent creation; concretely, with active
improvements A (usage 0, older) and B (usage 5, newer), A is selected and
keeps being selected after each recordUsage of A while its usage count stays
below B's; when it reaches B's usage, the tie-break hands selection to the
more recently created B. -/
theorem c6_round_robin :
    (∀ (store : List PromptImprovement) (r : PromptImprovement),
        selectImprovement store = some r →
        r.is_active = true ∧
        ∀ r2 ∈ store, r2.is_active = true →
          r.usage_count ≤ r2.usage_count ∧
          (r.usage_count = r2.usage_count → r2.created_at ≤ r.created_at))
    ∧ (∀ k, k < 5 →
        selectImprovement ((recordUsage ("A".toList))^[k] storeAB)
          = some ⟨"A".toList, k, 10, true⟩)
    ∧ selectImprovement ((recordUsage ("A".toList))^[5] storeAB) = some impB := by
  refine ⟨?_, by decide, by decide⟩
  intro store r hsel
  rw [selectImprovement] at hsel
  have hsorted : List.Sorted SelRel
      (List.insertionSort SelRel (store.filter (fun x => x.is_active))) :=
    List.sorted_insertionSort SelRel _
  have hperm : (List.insertionSort SelRel (store.filter (fun x => x.is_active))).Perm
      (store.filter (fun x => x.is_active)) :=
    List.perm_insertionSort SelRel _
  cases hcase : List.insertionSort SelRel (store.filter (fun x => x.is_active)) with
  | nil => rw [hcase] at hsel; cases hsel
  | cons x t =>
    rw [hcase] at hsel
    have hxr : x = r := by simpa using hsel
    subst hxr
    rw [hcase] at hsorted hperm
    have hrf : x ∈ store.filter (fun y => y.is_active) :=
      hperm.subset (by simp)
    refine ⟨(List.mem_filter.mp hrf).2, ?_⟩
    intro r2 hr2 hact
    have hr2f : r2 ∈ store.filter (fun y => y.is_active) :=
      List.mem_filter.mpr ⟨hr2, hact⟩
    have hr2l : r2 ∈ x :: t := hperm.mem_iff.mpr hr2f
    rcases List.mem_cons.mp hr2l with rfl | hr2t
    · exact ⟨le_refl _, fun _ => le_refl _⟩
    · have hrel := List.rel_of_sorted_cons hsorted r2 hr2t
      simp only [SelRel, selLe, Bool.or_eq_true, Bool.and_eq_true,
        decide_eq_true_eq] at hrel
      exact ⟨by omega, fun he => by omega⟩

/-- C6 witness: the general selector property evaluated on the concrete
store holding A (usage 0) and B (usage 5): the selected row is active, has
usage at most both rows' usage counts. -/
theorem c6_witness :
    impA.is_active = true ∧ impA.usage_count ≤ impB.usage_count := by
  have h := (c6_round_robin.1) storeAB impA (by decide)
  exact ⟨h.1, (h.2 impB (by decide) (by decide)).1⟩

/- ==================== CLAIM C7 ==================== -/

/-- C7 (amended): for a non-empty issue bucket all of whose entries carry a
rating of at least 1, the synthesized improvement has
confidence = min(totalFrequency / 20, 1) and
impactScore = (5 - sumOfRatings / numberOfEntries) / 5; for a non-empty
correction bucket the improvement has confidence = min(totalFrequency / 10, 1)
and a fixed impactScore of 0.8 that does not depend on any rating. -/
theorem c7_scores (itype : Str) (issues : List IssueEntry) (hne : issues ≠ [])
    (hall : ∀ e ∈ issues, ∃ q : ℚ, e.rating = some q ∧ 1 ≤ q)
    (ctype : Str) (cs : List CorrectionEntry) (hcs : cs ≠ []) :
    create_improvement_for_issue_type itype issues
      = some ⟨itype, improvementPrompts itype,
          min ((Nat.cast ((issues.map (fun e => e.frequency)).sum) : ℚ) / 20) 1,
          (5 - ((issues.filterMap (fun e => e.rating)).sum / (issues.length : ℚ))) / 5,
          (issues.map (fun e => e.frequency)).sum⟩
    ∧ create_improvement_for_corrections ctype cs
      = some ⟨ctype ++ ("_improvement".toList), correctionPrompts ctype,
          min ((Nat.cast ((cs.map (fun e => e.frequency)).sum) : ℚ) / 10) 1,
          (4 / 5 : ℚ),
          (cs.map (fun e => e.frequency)).sum⟩ := by
  constructor
  · have hfil : (issues.filterMap (fun e => e.rating)).filter (fun r => r ≠ 0)
        = issues.filterMap (fun e => e.rating) := by
      apply List.filter_eq_self.mpr
      intro q hq
      obtain ⟨e, he, hr⟩ := List.mem_filterMap.mp hq
      obtain ⟨q2, hq2, h1⟩ := hall e he
      rw [hq2] at hr
      have hqq : q2 = q := by simpa using hr
      subst hqq
      simp only [ne_eq, decide_eq_true_eq]
      intro h0
      rw [h0] at h1
      exact absurd h1 (by norm_num)
    simp only [create_improvement_for_issue_type]
    rw [hfil, if_neg (by simpa [List.isEmpty_iff] using hne)]
  · simp only [create_improvement_for_corrections]
    rw [if_neg (by simpa [List.isEmpty_iff] using hcs)]

/-- C7 counterexample: a correction bucket's improvement has impact score
fixed at 0.8, independent of ratings; on a bucket whose underlying feedback
entries average rating 2, the claimed formula (5 - averageRating) / 5 gives
0.6 — the code's 0.8 differs, so the claim is false for correction buckets. -/
theorem c7_cex :
    (create_improvement_for_corrections ("scope_corrections".toList) [corrW]).map
        (fun a => a.impact_score) = some ((4 : ℚ) / 5)
    ∧ ((4 : ℚ) / 5) ≠ (5 - 2) / 5 := by
  constructor
  · rfl
  · norm_num

/-- C7 witness: the amended score formulas evaluated on a concrete singleton
issue bucket (frequency 3, rating 2) and correction bucket (frequency 5). -/
theorem c7_witness :
    create_improvement_for_issue_type ("accuracy_issues".toList) [issueW]
      = some ⟨"accuracy_issues".toList, improvementPrompts ("accuracy_issues".toList),
          min ((Nat.cast (([issueW].map (fun e => e.frequency)).sum) : ℚ) / 20) 1,
          (5 - (([issueW].filterMap (fun e => e.rating)).sum
            / (([issueW] : List IssueEntry).length : ℚ))) / 5,
          ([issueW].map (fun e => e.frequency)).sum⟩
    ∧ create_improvement_for_corrections ("scope_corrections".toList) [corrW]
      = some ⟨("scope_corrections".toList) ++ ("_improvement".toList),
          correctionPrompts ("scope_corrections".toList),
          min ((Nat.cast (([corrW].map (fun e => e.frequency)).sum) : ℚ) / 10) 1,
          (4 / 5 : ℚ),
          ([corrW].map (fun e => e.frequency)).sum⟩ :=
  c7_scores ("accuracy_issues".toList) [issueW] (by simp)
    (fun e he => ⟨2, by rw [List.mem_singleton.mp he]; rfl, by norm_num⟩)
    ("scope_corrections".toList) [corrW] (by simp)

/- ==================== CLAIM C8 ==================== -/

/-- C8: after every add_document call on an available retrieval index whose
resulting corpus is non-empty, the corpus is the previous corpus extended
with the new document's retrieval chunks, and the stored document vectors
are the vectorizer re-fitted over that entire corpus — a full re-fit over
all chunks ingested so far, not an incremental update over only the new
document's chunks. -/
theorem c8_full_refit {V : Type} (fit : List Str → V) (st : RAGState V)
    (docId text : Str) (md : List (Str × Str))
    (hav : st.vectorizerAvailable = true)
    (hne : (add_document fit st docId text md).chunks ≠ []) :
    (add_document fit st docId text md).chunks
        = st.chunks ++ chunk_text_for_rag text 512
    ∧ (add_document fit st docId text md).document_vectors
        = some (fit ((add_document fit st docId text md).chunks)) := by
  have hcond : ¬ (st.vectorizerAvailable = false) := by rw [hav]; simp
  have hc : (add_document fit st docId text md).chunks
      = st.chunks ++ chunk_text_for_rag text 512 := by
    simp only [add_document, if_neg hcond]
  refine ⟨hc, ?_⟩
  rw [hc] at hne
  simp only [add_document, if_neg hcond, hc]
  rw [if_neg (by simpa [List.isEmpty_iff] using hne)]

/-- C8 witness: one ingestion into an empty available index with the chunk
count as the abstract vector model. -/
theorem c8_witness :
    (add_document List.length ragEmpty ("d".toList) ("Hi there.".toList) []).chunks
        = ragEmpty.chunks ++ chunk_text_for_rag ("Hi there.".toList) 512
    ∧ (add_document List.length ragEmpty ("d".toList) ("Hi there.".toList) []).document_vectors
        = some (List.length
            ((add_document List.length ragEmpty ("d".toList) ("Hi there.".toList) []).chunks)) :=
  c8_full_refit List.length ragEmpty ("d".toList) ("Hi there.".toList) [] rfl (by decide)

end PolicyReviewer
